import Mathlib

/-!
Verification development for a poker engine.

The definitions below are a shallow embedding of the Python sources:
`app/card.py`, `app/hand_evaluator.py`, `app/player.py`, `app/game.py`.
Python floats (chip amounts) are modelled as exact integers, Python lists
as `List`, the `Counter` queries as `List.count`, and Python `sorted` as
insertion sort (stability is immaterial for lists of numbers).
-/

namespace Poker

/-! Card model, from app/card.py: a suit and a rank; `Card.RANKS` maps
rank names to the values 2..14 (Ace high). -/

inductive Suit
  | Hearts | Diamonds | Clubs | Spades
deriving DecidableEq, Repr

inductive CardRank
  | r2 | r3 | r4 | r5 | r6 | r7 | r8 | r9 | r10 | Jack | Queen | King | Ace
deriving DecidableEq, Repr

/-- The `Card.RANKS` dictionary of app/card.py. -/
def rankValue : CardRank → Nat
  | .r2 => 2
  | .r3 => 3
  | .r4 => 4
  | .r5 => 5
  | .r6 => 6
  | .r7 => 7
  | .r8 => 8
  | .r9 => 9
  | .r10 => 10
  | .Jack => 11
  | .Queen => 12
  | .King => 13
  | .Ace => 14

structure Card where
  suit : Suit
  rank : CardRank
deriving DecidableEq, Repr

/-! Hand evaluator, from app/hand_evaluator.py. -/

/-- Python `sorted` on a list of numbers (ascending). -/
def sortAsc (l : List Nat) : List Nat :=
  List.insertionSort (fun a b => a ≤ b) l

/-- Python `sorted(·, reverse=True)` on a list of numbers (descending). -/
def sortDesc (l : List Nat) : List Nat :=
  List.insertionSort (fun a b => a ≥ b) l

/-- Python `count in rank_counts.values()`: some rank occurs exactly `c` times. -/
def hasCount (ranks : List Nat) (c : Nat) : Bool :=
  ranks.any (fun r => ranks.count r == c)

/-- Python `max` over a list of ranks (only used on nonempty lists). -/
def listMax (l : List Nat) : Nat :=
  l.foldr max 0

/-- `HandEvaluator.get_rank_by_count`: the highest rank appearing exactly
`c` times (`None` is unreachable at its call sites; `0` stands in). -/
def get_rank_by_count (ranks : List Nat) (c : Nat) : Nat :=
  listMax (ranks.dedup.filter (fun r => ranks.count r == c))

/-- `HandEvaluator.get_ranks_by_count`: all ranks appearing exactly `c`
times, sorted descending. -/
def get_ranks_by_count (ranks : List Nat) (c : Nat) : List Nat :=
  sortDesc (ranks.dedup.filter (fun r => ranks.count r == c))

/-- `HandEvaluator.get_high_cards`: the `count` highest ranks not excluded. -/
def get_high_cards (ranks : List Nat) (exclude : List Nat) (count : Nat) : List Nat :=
  (sortDesc (ranks.filter (fun r => !(exclude.contains r)))).take count

/-- `HandEvaluator.is_flush`: at least five cards of one suit. -/
def is_flush (suits : List Suit) : Bool :=
  suits.any (fun s => decide (5 ≤ suits.count s))

/-- The window scan of `HandEvaluator.is_straight`: on an ascending list of
distinct ranks, find the first (lowest) window of five consecutive values
and return its high card. -/
def findStraightHigh : List Nat → Option Nat
  | a :: b :: c :: d :: e :: rest =>
      if ((e : Int) - (a : Int)) == 4 then some e
      else findStraightHigh (b :: c :: d :: e :: rest)
  | _ => none

/-- `HandEvaluator.is_straight`: scans the sorted distinct ranks, then the
variant with Ace counted as 1 (the last, highest entry dropped). -/
def is_straight (ranks : List Nat) : Bool × Option Nat :=
  let sorted_ranks := sortAsc ranks.dedup
  let withLowAce := if ranks.contains 14 then 1 :: sorted_ranks.dropLast else sorted_ranks
  match findStraightHigh sorted_ranks with
  | some h => (true, some h)
  | none =>
    match findStraightHigh withLowAce with
    | some h => (true, some h)
    | none => (false, none)

/-- The `remaining_ranks` list of the full-house check: ranks appearing at
least twice that are not among the triples. -/
def fullHouseRem (ranks : List Nat) : List Nat :=
  ranks.dedup.filter (fun r => decide (2 ≤ ranks.count r) && !((get_ranks_by_count ranks 3).contains r))

/-- `HandEvaluator.evaluate_five_card_hand`: classify one five-card hand
into (category, tiebreak list), categories checked from 10 down to 1. -/
def evaluate_five_card_hand (cards : List Card) : Nat × List Nat :=
  let ranks := cards.map (fun c => rankValue c.rank)
  let suits := cards.map (fun c => c.suit)
  let fl := is_flush suits
  let st := is_straight ranks
  if fl && st.1 then
    if st.2 == some 14 then (10, [14]) else (9, [st.2.getD 0])
  else if hasCount ranks 4 then
    (8, get_rank_by_count ranks 4 :: get_high_cards ranks [get_rank_by_count ranks 4] 1)
  else if hasCount ranks 3 && !(fullHouseRem ranks).isEmpty then
    (7, [listMax (get_ranks_by_count ranks 3), listMax (fullHouseRem ranks)])
  else if fl then
    (6, sortDesc ranks)
  else if st.1 then
    (5, [st.2.getD 0])
  else if hasCount ranks 3 then
    (4, get_rank_by_count ranks 3 :: get_high_cards ranks [get_rank_by_count ranks 3] 2)
  else if 2 ≤ (get_ranks_by_count ranks 2).length then
    (3, (get_ranks_by_count ranks 2).take 2 ++ get_high_cards ranks ((get_ranks_by_count ranks 2).take 2) 1)
  else if hasCount ranks 2 then
    (2, get_rank_by_count ranks 2 :: get_high_cards ranks [get_rank_by_count ranks 2] 3)
  else
    (1, (sortDesc ranks).take 5)

/-- Python list comparison `l > m` on lists of numbers: lexicographic with
a longer list beating its proper prefix. -/
def pyListGt : List Nat → List Nat → Bool
  | [], _ => false
  | _ :: _, [] => true
  | a :: l, b :: m => if a > b then true else if b > a then false else pyListGt l m

/-- Comparison of a tiebreak list against the running best (`None` stands
for the initial `best_hand = None`; that branch is unreachable because the
first five-card hand always wins against `best_rank = 0`). -/
def pyGtOpt (l : List Nat) : Option (List Nat) → Bool
  | some m => pyListGt l m
  | none => false

/-- `itertools.combinations(l, n)`: all `n`-element subsequences of `l`,
those containing the head first. -/
def combinations : Nat → List Card → List (List Card)
  | 0, _ => [[]]
  | _ + 1, [] => []
  | n + 1, x :: l => (combinations n l).map (fun c => x :: c) ++ combinations (n + 1) l

/-- The update step of the best-hand scan in `HandEvaluator.evaluate_hand`:
keep the new hand when its rank is higher, or equal with a greater
tiebreak list. -/
def stepBest (best : Nat × Option (List Nat)) (hand5 : List Card) : Nat × Option (List Nat) :=
  let e := evaluate_five_card_hand hand5
  if e.1 > best.1 || (e.1 == best.1 && pyGtOpt e.2 best.2) then (e.1, some e.2) else best

/-- `HandEvaluator.evaluate_hand`: scan every five-card combination of the
hole cards plus community cards, starting from `(0, None)`. -/
def evaluate_hand (hand community : List Card) : Nat × Option (List Nat) :=
  (combinations 5 (hand ++ community)).foldl stepBest (0, none)

/-- The strict comparison the best-hand scan applies between evaluation
keys once a first hand has been recorded: higher rank, or equal rank with
a greater tiebreak list. -/
def keyGt (a b : Nat × List Nat) : Bool :=
  decide (b.1 < a.1) || (a.1 == b.1 && pyListGt a.2 b.2)

/-- The best-hand scan restated on evaluation keys: fold `keyGt` over the
keys starting from a first key. -/
def maxFrom (b : Nat × List Nat) (ks : List (Nat × List Nat)) : Nat × List Nat :=
  ks.foldl (fun acc k => if keyGt k acc then k else acc) b

/-! Betting engine, from app/player.py and app/game.py. Chip amounts
(Python floats) are modelled as exact integers: the engine only ever adds,
subtracts, doubles, takes maxima of and compares amounts, so an exact
numeric model suffices. A player is identified by the seat index in
`Game.players`; `active` holds the indices of `Game.active_players` in
list order. -/

structure PlayerSt where
  chips : ℤ
  current_bet : ℤ
  folded : Bool
  all_in : Bool
deriving DecidableEq, Repr

instance : Inhabited PlayerSt := ⟨⟨0, 0, false, false⟩⟩

inductive Stage
  | preflop | flop | turn | river
deriving DecidableEq, Repr

structure GameSt where
  players : List PlayerSt
  active : List Nat
  dealer : Nat
  pot : ℤ
  current_bet : ℤ
  community : List Card
  stage : Stage
deriving DecidableEq, Repr

/-- `Player.place_bet`: raises `ValueError` (modelled as `Except.error`)
when the amount exceeds the stack, otherwise moves the amount from the
stack into the player's street commitment, marking all-in on exhaustion. -/
def place_bet (p : PlayerSt) (amount : ℤ) : Except Unit PlayerSt :=
  if amount > p.chips then .error ()
  else
    let p1 : PlayerSt := { p with chips := p.chips - amount, current_bet := p.current_bet + amount }
    .ok (if p1.chips == 0 then { p1 with all_in := true } else p1)

/-- `Player.call`: pays up to the current highest bet, going all-in when
the stack cannot cover the difference. -/
def player_call (p : PlayerSt) (amount : ℤ) : Except Unit PlayerSt :=
  let call_amount := amount - p.current_bet
  if call_amount > p.chips then place_bet p p.chips else place_bet p call_amount

/-! The decision strings returned by `Player.get_action` are modelled, at
the granularity `Game.parse_action` inspects them, as lists of tokens:
the five keywords, the word separating a raise from its amount, a numeric
word, or any other word. -/

inductive Token
  | fold | check | call | raiseTok | to | allin | num (q : ℤ) | other
deriving DecidableEq, Repr

inductive PAct
  | fold | check | call | raiseA | allin
deriving DecidableEq, Repr

/-- Python `parts.index('to')`: index of the first occurrence. -/
def indexOfTo : List Token → Option Nat
  | [] => none
  | .to :: _ => some 0
  | _ :: rest => (indexOfTo rest).map (fun i => i + 1)

/-- `Game.parse_action`: keyword membership checked in a fixed priority
order; a raise amount is read from the word after the first separator,
with `current_bet * 2` as the fallback; anything unrecognized folds. -/
def parse_action (cb : ℤ) (parts : List Token) : PAct × ℤ :=
  if parts.contains .fold then (.fold, 0)
  else if parts.contains .check then (.check, 0)
  else if parts.contains .call then (.call, cb)
  else if parts.contains .raiseTok then
    match indexOfTo parts with
    | some i =>
      match parts.get? (i + 1) with
      | some (.num q) => (.raiseA, q)
      | _ => (.raiseA, cb * 2)
    | none => (.raiseA, cb * 2)
  else if parts.contains .allin then (.allin, 0)
  else (.fold, 0)

def playerOf (g : GameSt) (pid : Nat) : PlayerSt :=
  g.players.getD pid default

def setPlayer (g : GameSt) (pid : Nat) (p : PlayerSt) : GameSt :=
  { g with players := g.players.set pid p }

/-- Python set `add`: the acted set is kept as a duplicate-free list. -/
def setInsert (x : Nat) (l : List Nat) : List Nat :=
  if l.contains x then l else l ++ [x]

/-- Python set equality `players_who_acted == set(active_players)`. -/
def setEq (l1 l2 : List Nat) : Bool :=
  l1.all (fun x => l2.contains x) && l2.all (fun x => l1.contains x)

/-- The `all_bets_equal` recomputation of `Game.betting_round`. -/
def allBetsEqual (g : GameSt) : Bool :=
  g.active.all (fun i =>
    (playerOf g i).folded || (playerOf g i).all_in || (playerOf g i).current_bet == g.current_bet)

/-- A decision provider: seat index and game snapshot to action words. -/
abbrev Strat := Nat → GameSt → List Token

inductive TurnRes
  | ret (g : GameSt) (acted : List Nat)
  | err (g : GameSt) (acted : List Nat)
  | cont (g : GameSt) (acted : List Nat) (abe : Bool)
deriving DecidableEq, Repr

def TurnRes.gameOf : TurnRes → GameSt
  | .ret g _ => g
  | .err g _ => g
  | .cont g _ _ => g

def TurnRes.actedOf : TurnRes → List Nat
  | .ret _ a => a
  | .err _ a => a
  | .cont _ a _ => a

/-- The common tail of one player's turn: add the seat to the acted set,
recompute `all_bets_equal`, and return when the street-complete test
(acted set equals the active set, bets matched) passes. -/
def finishTurn (g : GameSt) (pid : Nat) (acted : List Nat) : TurnRes :=
  let acted1 := setInsert pid acted
  let abe1 := allBetsEqual g
  if abe1 && setEq acted1 g.active then .ret g acted1 else .cont g acted1 abe1

/-- One iteration of the `for player in action_order` body of
`Game.betting_round`: skip folded or all-in seats, return when the
street-complete test already holds, otherwise parse and apply the seat's
action. An illegal check and the raise branch's `ValueError` are the
`continue` and the uncaught exception of the source. -/
def runTurn (strat : Strat) (g : GameSt) (acted : List Nat) (abe : Bool) (pid : Nat) : TurnRes :=
  let p := playerOf g pid
  if p.folded || p.all_in then .cont g acted abe
  else if setEq acted g.active && abe then .ret g acted
  else
    let pa := parse_action g.current_bet (strat pid g)
    match pa.1 with
    | .fold =>
      let g1 := setPlayer g pid { p with folded := true }
      let g2 := { g1 with active := g1.active.erase pid }
      finishTurn g2 pid acted
    | .check =>
      if p.current_bet < g.current_bet then .cont g acted abe
      else finishTurn g pid acted
    | .call =>
      let ca0 := g.current_bet - p.current_bet
      let call_amount := if ca0 > p.chips then p.chips else ca0
      match player_call p g.current_bet with
      | .error _ => .err g acted
      | .ok p1 =>
        let g1 := setPlayer g pid p1
        let g2 := { g1 with pot := g1.pot + call_amount }
        finishTurn g2 pid acted
    | .raiseA =>
      let ra0 := pa.2 - p.current_bet
      let raise_amount := if ra0 > p.chips then p.chips else ra0
      match place_bet p pa.2 with
      | .error _ => .err g acted
      | .ok p1 =>
        let g1 := setPlayer g pid p1
        let g2 := { g1 with current_bet := pa.2, pot := g1.pot + raise_amount }
        finishTurn g2 pid []
    | .allin =>
      let all_in_amount := p.chips
      match place_bet p p.chips with
      | .error _ => .err g acted
      | .ok p1 =>
        let p2 := if p1.chips == 0 then { p1 with all_in := true } else p1
        let g1 := setPlayer g pid p2
        let g2 := { g1 with pot := g1.pot + all_in_amount }
        let g3 := { g2 with current_bet := max g2.current_bet p2.current_bet }
        finishTurn g3 pid acted

inductive LapRes
  | returned (g : GameSt) (acted : List Nat)
  | errorL (g : GameSt) (acted : List Nat)
  | lapEnd (g : GameSt) (acted : List Nat)
deriving DecidableEq, Repr

/-- One full pass of the `for` loop over the action order. -/
def runLap (strat : Strat) : List Nat → GameSt → List Nat → Bool → LapRes
  | [], g, acted, _ => .lapEnd g acted
  | pid :: rest, g, acted, abe =>
    match runTurn strat g acted abe pid with
    | .ret g1 a1 => .returned g1 a1
    | .err g1 a1 => .errorL g1 a1
    | .cont g1 a1 abe1 => runLap strat rest g1 a1 abe1

inductive BRRes
  | complete | oneLeft | fuelOut | errored
deriving DecidableEq, Repr

structure BROut where
  res : BRRes
  g : GameSt
  acted : List Nat
deriving DecidableEq, Repr

/-- The `while True` loop of `Game.betting_round`: each pass resets
`all_bets_equal` to true, runs a lap, drops folded seats from the action
order, and ends outright when at most one seat is left in it. The fuel
argument bounds the number of passes; the source can loop forever. -/
def bettingLoop (strat : Strat) : Nat → List Nat → GameSt → List Nat → BROut
  | 0, _, g, acted => ⟨.fuelOut, g, acted⟩
  | fuel + 1, order, g, acted =>
    match runLap strat order g acted true with
    | .returned g1 a1 => ⟨.complete, g1, a1⟩
    | .errorL g1 a1 => ⟨.errored, g1, a1⟩
    | .lapEnd g1 a1 =>
      let order1 := order.filter (fun pid => !(playerOf g1 pid).folded)
      if order1.length ≤ 1 then ⟨.oneLeft, g1, a1⟩
      else bettingLoop strat fuel order1 g1 a1

/-- The action-order construction of `Game.betting_round`: walk seats
clockwise from the dealer, appending seats that are active, not folded and
not all-in, until the order is as long as the active list. The source's
`while` can loop forever (and can append a seat twice); fuel bounds it. -/
def buildOrder (g : GameSt) : Nat → Nat → List Nat → Option (List Nat)
  | 0, _, _ => none
  | fuel + 1, idx, acc =>
    if acc.length < g.active.length then
      let acc1 := if g.active.contains idx && !(playerOf g idx).folded && !(playerOf g idx).all_in
                  then acc ++ [idx] else acc
      buildOrder g fuel ((idx + 1) % g.players.length) acc1
    else some acc

/-- The opening loop of `Game.betting_round`: zero the street commitment
of every active player (the round's `current_bet` is not touched). -/
def resetBetsAux (active : List Nat) : List PlayerSt → Nat → List PlayerSt
  | [], _ => []
  | p :: ps, i => (if active.contains i then { p with current_bet := 0 } else p) :: resetBetsAux active ps (i + 1)

def resetActiveBets (g : GameSt) : GameSt :=
  { g with players := resetBetsAux g.active g.players 0 }

/-- `Game.betting_round`: reset street commitments, build the action
order, then loop. -/
def betting_round (strat : Strat) (fuel bfuel : Nat) (g0 : GameSt) : BROut :=
  let g := resetActiveBets g0
  match buildOrder g bfuel ((g.dealer + 1) % g.players.length) [] with
  | none => ⟨.fuelOut, g, []⟩
  | some order => bettingLoop strat fuel order g []

/-- `Game.deal_community_cards`: pop `n` cards off the end of the deck,
appending each to the board (`none` models deck exhaustion). -/
def dealCommunity : Nat → List Card → GameSt → Option (List Card × GameSt)
  | 0, d, g => some (d, g)
  | n + 1, d, g =>
    match d.getLast? with
    | none => none
    | some c => dealCommunity n d.dropLast { g with community := g.community ++ [c] }

/-- The street transition of `Game.play_round`: after a street's betting
round, if more than one seat is active, advance the stage, deal the
street's community cards, and begin the next betting round up to and
including its opening commitment reset. The result is the state in which
the new street's first decision is taken. -/
def streetEntry (strat : Strat) (fuel bfuel n : Nat) (stage1 : Stage) (deck : List Card) (g : GameSt) : Option GameSt :=
  let out := betting_round strat fuel bfuel g
  if 1 < out.g.active.length then
    match dealCommunity n deck { out.g with stage := stage1 } with
    | some (_, g1) => some (resetActiveBets g1)
    | none => none
  else none

/-- Total chips in sight of the betting round: all stacks plus the pot. -/
def chipTotal (g : GameSt) : ℤ :=
  (g.players.map (fun p => p.chips)).sum + g.pot

def TurnRes.isErr : TurnRes → Bool
  | .err _ _ => true
  | _ => false

/-! Concrete scenarios used in the theorems below. -/

def mkPlayer (c : ℤ) : PlayerSt :=
  ⟨c, 0, false, false⟩

def deuceH : Card :=
  ⟨.Hearts, .r2⟩

/-- Two fresh seats of 1000 chips, seat 0 on the button; no bet pending. -/
def gTwo : GameSt :=
  ⟨[mkPlayer 1000, mkPlayer 1000], [0, 1], 0, 0, 0, [], .preflop⟩

/-- Seat 1 raises to 10, then to 30, then calls; seat 0 raises to 20, then
calls. -/
def stratRaiseWar : Strat := fun pid g =>
  if pid = 1 then
    if g.current_bet < 10 then [.raiseTok, .to, .num 10]
    else if g.current_bet < 30 then [.raiseTok, .to, .num 30]
    else [.call]
  else
    if g.current_bet < 20 then [.raiseTok, .to, .num 20] else [.call]

/-- Seat 1 opens with a raise to 10 and then always checks; seat 0 always
answers with a (then illegal) check. -/
def stratIllegalCheck : Strat := fun pid g =>
  if pid = 1 then (if g.current_bet < 10 then [.raiseTok, .to, .num 10] else [.check])
  else [.check]

/-- Every seat calls when facing a bet and checks otherwise. -/
def stratCallCheck : Strat := fun pid g =>
  if (playerOf g pid).current_bet < g.current_bet then [.call] else [.check]

/-- Seat 1 raises to 15, re-raises to 45, then calls; seat 0 raises to 25,
then calls. -/
def stratReRaise : Strat := fun pid g =>
  if pid = 1 then
    if g.current_bet < 15 then [.raiseTok, .to, .num 15]
    else if g.current_bet < 45 then [.raiseTok, .to, .num 45]
    else [.call]
  else
    if g.current_bet < 25 then [.raiseTok, .to, .num 25] else [.call]

/-- Every seat always checks. -/
def stratCheck : Strat := fun _ _ => [.check]

/-- Every seat raises to 20. -/
def stratRaiseTo20 : Strat := fun _ _ => [.raiseTok, .to, .num 20]

/-- Every seat moves all-in. -/
def stratAllIn : Strat := fun _ _ => [.allin]

/-- Mid-street state for the re-raise bug: the bet stands at 10, seat 0
has already committed 10 this street with 100 chips behind, seat 1 has
also committed 10; the pot holds 20. -/
def gReRaiseFacing : GameSt :=
  ⟨[⟨100, 10, false, false⟩, ⟨990, 10, false, false⟩], [0, 1], 0, 20, 10, [], .preflop⟩

/-- Mid-street state for the all-in test: seat 0 has bet 10, seat 1 faces
it with a 50-chip stack and nothing committed. -/
def gAllInFacing : GameSt :=
  ⟨[⟨990, 10, false, false⟩, ⟨50, 0, false, false⟩], [0, 1], 0, 10, 10, [], .preflop⟩

/-- Two seats where seat 1 holds only 5 chips. -/
def gShort : GameSt :=
  ⟨[mkPlayer 1000, mkPlayer 5], [0, 1], 0, 0, 0, [], .preflop⟩

/-- Seat 1 tries to raise to 20 (beyond its stack); seat 0 would call. -/
def stratShortRaise : Strat := fun pid _ =>
  if pid = 1 then [.raiseTok, .to, .num 20] else [.call]

/-- Pre-flop state after blinds of 5 and 10 at a three-seat table: seat 1
posted the small blind, seat 2 the big blind, the pot holds 15 and the
round's bet stands at 10. -/
def gThreeBlinds : GameSt :=
  ⟨[mkPlayer 1000, ⟨995, 5, false, false⟩, ⟨990, 10, false, false⟩], [0, 1, 2], 0, 15, 10, [], .preflop⟩

/-- Short-stacked seat facing a bet of 10 with 3 chips behind, used as the
call-clamping witness scenario. -/
def gShortCall : GameSt :=
  ⟨[⟨3, 0, false, false⟩, ⟨990, 10, false, false⟩], [0, 1], 0, 13, 10, [], .preflop⟩

/-- The state in which flop betting starts from `gThreeBlinds` after every
seat calls pre-flop and the flop is dealt from the deck 7 of Hearts, Jack
of Spades, 4 of Clubs (dealt off the back end). -/
def gFlopEntry : GameSt :=
  ⟨[⟨990, 0, false, false⟩, ⟨985, 0, false, false⟩, ⟨980, 0, false, false⟩], [0, 1, 2], 0, 45, 10,
    [⟨.Clubs, .r4⟩, ⟨.Spades, .Jack⟩, ⟨.Hearts, .r7⟩], .flop⟩

/-! Theorems. -/

set_option maxRecDepth 16384 in
/-- Claim C8: evaluating the hole cards Ace of Hearts and 2 of Clubs with
the community cards 3 of Diamonds, 4 of Spades, 5 of Hearts, 9 of Clubs
and King of Diamonds returns category 5 (Straight) with tiebreak [5]: the
wheel A-2-3-4-5 is recognized with the Ace counted as 1 and the straight
reported by its high card 5. -/
theorem claim_C8_wheel_straight :
    evaluate_hand [⟨.Hearts, .Ace⟩, ⟨.Clubs, .r2⟩]
      [⟨.Diamonds, .r3⟩, ⟨.Spades, .r4⟩, ⟨.Hearts, .r5⟩, ⟨.Clubs, .r9⟩, ⟨.Diamonds, .King⟩]
      = (5, some [5]) := by decide

/-- Claim C1, evaluated at the failing input: in `gReRaiseFacing` (bet at
10, seat 0 already committed 10 with 100 chips behind, pot 20) seat 0
raises to 20. The engine sets the bet to 20 and adds 10 = 20 - 10 to the
pot, but charges the seat the full 20: the stack falls from 100 to 80
while the pot only grows from 20 to 30, against the claimed equal decrease
of amount minus committed. The acted set does reset to the raiser. -/
theorem claim_C1_raise_double_charge :
    (runTurn stratRaiseTo20 gReRaiseFacing [1] true 0).gameOf.current_bet = 20 ∧
    (playerOf (runTurn stratRaiseTo20 gReRaiseFacing [1] true 0).gameOf 0).chips = 80 ∧
    (playerOf (runTurn stratRaiseTo20 gReRaiseFacing [1] true 0).gameOf 0).current_bet = 30 ∧
    (runTurn stratRaiseTo20 gReRaiseFacing [1] true 0).gameOf.pot = 30 ∧
    (runTurn stratRaiseTo20 gReRaiseFacing [1] true 0).actedOf = [0] := by decide

/-- Claim C5, evaluated at the failing input: a raise war between two
seats of 1000 chips (raise to 15, to 25, re-raise to 45, call) completes
the street with only 1985 chips left across stacks and pot, against the
initial 2000: the re-raise to 45 charged the raiser 45 while crediting the
pot 30, so chips vanish. -/
theorem claim_C5_chips_vanish :
    chipTotal gTwo = 2000 ∧
    (betting_round stratReRaise 5 10 gTwo).res = .complete ∧
    chipTotal (betting_round stratReRaise 5 10 gTwo).g = 1985 := by decide

/-- Claim C2, counterexample: under `stratRaiseWar` the betting round
returns complete while seat 1 is neither folded nor all-in and has not
matched the current bet (it stands at 40 against a bet of 30, a residue of
the re-raise double charge), and two eligible seats remain; the claimed
completion condition is therefore violated at completion. The early return
fires at a lap start, where the source re-initializes its bets-equal flag
to true before checking it. -/
theorem claim_C2_counterexample :
    (betting_round stratRaiseWar 5 10 gTwo).res = .complete ∧
    (playerOf (betting_round stratRaiseWar 5 10 gTwo).g 1).folded = false ∧
    (playerOf (betting_round stratRaiseWar 5 10 gTwo).g 1).all_in = false ∧
    ¬ (playerOf (betting_round stratRaiseWar 5 10 gTwo).g 1).current_bet
        = (betting_round stratRaiseWar 5 10 gTwo).g.current_bet ∧
    2 ≤ ((betting_round stratRaiseWar 5 10 gTwo).g.active.filter
        (fun i => !(playerOf (betting_round stratRaiseWar 5 10 gTwo).g i).folded
          && !(playerOf (betting_round stratRaiseWar 5 10 gTwo).g i).all_in)).length := by decide

/-- Claim C3, counterexample: seat 0 repeatedly attempts to check while
facing seat 1's bet of 10. After four full passes of the loop the seat is
still not folded, still in the active list, still absent from the acted
set, and still facing the bet: the illegal check is skipped, not converted
into a fold, and the round makes no progress. -/
theorem claim_C3_counterexample :
    (betting_round stratIllegalCheck 4 10 gTwo).res = .fuelOut ∧
    (playerOf (betting_round stratIllegalCheck 4 10 gTwo).g 0).folded = false ∧
    (betting_round stratIllegalCheck 4 10 gTwo).g.active.contains 0 = true ∧
    (betting_round stratIllegalCheck 4 10 gTwo).acted.contains 0 = false ∧
    (playerOf (betting_round stratIllegalCheck 4 10 gTwo).g 0).current_bet
      < (betting_round stratIllegalCheck 4 10 gTwo).g.current_bet := by decide

/-- Claim C4, counterexample: from the post-blind state `gThreeBlinds`
(bet at 10) with every seat calling or checking, the pre-flop street
completes and the flop is entered, yet at the moment the flop betting
begins the round's current_bet is still 10, not 0. -/
theorem claim_C4_counterexample :
    (streetEntry stratCallCheck 5 20 3 .flop
        [⟨.Hearts, .r7⟩, ⟨.Spades, .Jack⟩, ⟨.Clubs, .r4⟩] gThreeBlinds).map GameSt.current_bet
      = some 10 ∧
    ¬ (streetEntry stratCallCheck 5 20 3 .flop
        [⟨.Hearts, .r7⟩, ⟨.Spades, .Jack⟩, ⟨.Clubs, .r4⟩] gThreeBlinds).map GameSt.current_bet
      = some 0 := by decide

/-- Claim C6, counterexample: in `gAllInFacing` (bet at 10, seat 0 already
acted) seat 1 moves all-in for 50, a commitment above the bet. The bet is
raised to 50, but the acted set is not cleared: seat 0 remains recorded as
having acted, against the claimed reopening. -/
theorem claim_C6_counterexample :
    (runTurn stratAllIn gAllInFacing [0] true 1).gameOf.current_bet = 50 ∧
    (playerOf (runTurn stratAllIn gAllInFacing [0] true 1).gameOf 1).current_bet = 50 ∧
    (runTurn stratAllIn gAllInFacing [0] true 1).actedOf = [0, 1] ∧
    (runTurn stratAllIn gAllInFacing [0] true 1).actedOf.contains 0 = true := by decide

/-- Claim C7, counterexample: seat 1, holding 5 chips, raises to 20. The
commitment is not clamped to the stack: `place_bet` raises an error (the
source's uncaught ValueError), the betting round aborts, and the seat is
neither charged nor marked all-in. -/
theorem claim_C7_counterexample :
    (betting_round stratShortRaise 5 10 gShort).res = .errored ∧
    (playerOf (betting_round stratShortRaise 5 10 gShort).g 1).chips = 5 ∧
    (playerOf (betting_round stratShortRaise 5 10 gShort).g 1).all_in = false := by decide

/-- Auxiliary: there are no `n`-card combinations of fewer than `n` cards. -/
theorem combinations_eq_nil : ∀ (n : Nat) (l : List Card), l.length < n → combinations n l = [] := by
  intro n l
  induction l generalizing n with
  | nil =>
    intro h
    cases n with
    | zero => omega
    | succ n => rfl
  | cons x l ih =>
    intro h
    cases n with
    | zero => omega
    | succ n =>
      have h1 : l.length < n := by simp only [List.length_cons] at h; omega
      have h2 : l.length < n + 1 := by omega
      simp [combinations, ih n h1, ih (n + 1) h2]

/-- Claim C10: with fewer than five combined cards the evaluation scans no
five-card combination at all and returns the initial pair `(0, none)`, a
category below the documented range with no tiebreak, without error. -/
theorem claim_C10_short_input (hand community : List Card)
    (h : hand.length + community.length < 5) :
    evaluate_hand hand community = (0, none) := by
  unfold evaluate_hand
  rw [combinations_eq_nil 5 (hand ++ community) (by simp only [List.length_append]; omega)]
  rfl

theorem claim_C10_witness :
    ([(⟨.Hearts, .Ace⟩ : Card), ⟨.Clubs, .r2⟩].length + ([] : List Card).length < 5) ∧
    evaluate_hand [⟨.Hearts, .Ace⟩, ⟨.Clubs, .r2⟩] [] = (0, none) :=
  ⟨by decide, claim_C10_short_input _ _ (by decide)⟩

/-- Auxiliary: `finishTurn` never changes the game state it is given. -/
theorem finishTurn_gameOf (g : GameSt) (pid : Nat) (acted : List Nat) :
    (finishTurn g pid acted).gameOf = g := by
  simp only [finishTurn]
  split <;> rfl

/-- Auxiliary: `finishTurn` always records the actor into the acted set. -/
theorem finishTurn_actedOf (g : GameSt) (pid : Nat) (acted : List Nat) :
    (finishTurn g pid acted).actedOf = setInsert pid acted := by
  simp only [finishTurn]
  split <;> rfl

/-- Auxiliary: `finishTurn` never produces the error outcome. -/
theorem finishTurn_not_err (g : GameSt) (pid : Nat) (acted : List Nat) :
    (finishTurn g pid acted).isErr = false := by
  simp only [finishTurn]
  split <;> rfl

/-- Claim C3, amended: an attempted check while facing a bet is rejected
but merely skipped, leaving the state, the acted set and the bets-equal
flag untouched (the seat stays unfolded and will be asked again on a later
pass), while an action string containing none of the five keywords is
parsed as a fold by default and does fold the seat. -/
theorem claim_C3_amended (strat : Strat) (g : GameSt) (acted : List Nat) (abe : Bool)
    (pid : Nat) (cb : ℤ) (parts : List Token)
    (hnf : (playerOf g pid).folded = false) (hna : (playerOf g pid).all_in = false)
    (htop : (setEq acted g.active && abe) = false)
    (hact : parse_action g.current_bet (strat pid g) = (.check, 0))
    (hlt : (playerOf g pid).current_bet < g.current_bet)
    (hf : Token.fold ∉ parts) (hc : Token.check ∉ parts)
    (hcl : Token.call ∉ parts) (hr : Token.raiseTok ∉ parts)
    (ha : Token.allin ∉ parts) :
    runTurn strat g acted abe pid = .cont g acted abe ∧
    parse_action cb parts = (.fold, 0) := by
  constructor
  · unfold runTurn
    simp [hnf, hna, htop, hact, hlt]
  · unfold parse_action
    simp [hf, hc, hcl, hr, ha]

theorem claim_C3_amended_witness :
    runTurn stratCheck gAllInFacing [0] true 1 = .cont gAllInFacing [0] true ∧
    parse_action 7 [.to, .num 3, .other] = (.fold, 0) :=
  claim_C3_amended stratCheck gAllInFacing [0] true 1 7 [.to, .num 3, .other]
    (by decide) (by decide) (by decide) (by decide) (by decide)
    (by decide) (by decide) (by decide) (by decide) (by decide)

/-- Claim C6, amended: an all-in commits the seat's whole remaining stack
to the pot and lifts the round's bet to the maximum of its old value and
the seat's resulting commitment (so an all-in above the bet does raise
it and one at or below it does not), but it never clears the acted set:
the actor is merely added to it, so previously recorded seats stay
recorded and re-acting is forced only through the bets-equal test. -/
theorem claim_C6_amended (strat : Strat) (g : GameSt) (acted : List Nat) (abe : Bool)
    (pid : Nat)
    (hnf : (playerOf g pid).folded = false) (hna : (playerOf g pid).all_in = false)
    (htop : (setEq acted g.active && abe) = false)
    (hact : parse_action g.current_bet (strat pid g) = (.allin, 0)) :
    (runTurn strat g acted abe pid).gameOf.current_bet
      = max g.current_bet ((playerOf g pid).current_bet + (playerOf g pid).chips) ∧
    (runTurn strat g acted abe pid).actedOf = setInsert pid acted ∧
    (runTurn strat g acted abe pid).gameOf.pot = g.pot + (playerOf g pid).chips ∧
    (runTurn strat g acted abe pid).isErr = false := by
  unfold runTurn
  simp [hnf, hna, htop, hact, place_bet, finishTurn_gameOf, finishTurn_actedOf,
    finishTurn_not_err, setPlayer]

theorem claim_C6_amended_witness :
    (runTurn stratAllIn gTwo [] true 0).gameOf.current_bet = max 0 (0 + 1000) ∧
    (runTurn stratAllIn gTwo [] true 0).actedOf = setInsert 0 [] ∧
    (runTurn stratAllIn gTwo [] true 0).gameOf.pot = 0 + 1000 ∧
    (runTurn stratAllIn gTwo [] true 0).isErr = false :=
  claim_C6_amended stratAllIn gTwo [] true 0 (by decide) (by decide) (by decide) (by decide)

/-- Auxiliary: reading back the seat just written. -/
theorem playerOf_setPlayer_self (g : GameSt) (pid : Nat) (p : PlayerSt)
    (h : pid < g.players.length) : playerOf (setPlayer g pid p) pid = p := by
  unfold playerOf setPlayer
  rw [List.getD_eq_getElem?_getD, List.getElem?_set_self (by simpa using h)]
  rfl

/-- Claim C7, amended: only the call path clamps. A call whose required
amount exceeds the stack commits exactly the remaining stack, marks the
seat all-in, and completes without error; a raise whose named amount
exceeds the stack is not clamped but aborts the round with the error of
`place_bet` (the source's ValueError), leaving the state untouched. -/
theorem claim_C7_amended (strat : Strat) (g : GameSt) (acted : List Nat) (abe : Bool)
    (pid : Nat) (strat2 : Strat) (g2 : GameSt) (acted2 : List Nat) (abe2 : Bool)
    (pid2 : Nat) (amt : ℤ)
    (hpid : pid < g.players.length)
    (hnf : (playerOf g pid).folded = false) (hna : (playerOf g pid).all_in = false)
    (htop : (setEq acted g.active && abe) = false)
    (hact : parse_action g.current_bet (strat pid g) = (.call, g.current_bet))
    (hover : (playerOf g pid).chips < g.current_bet - (playerOf g pid).current_bet)
    (hnf2 : (playerOf g2 pid2).folded = false) (hna2 : (playerOf g2 pid2).all_in = false)
    (htop2 : (setEq acted2 g2.active && abe2) = false)
    (hact2 : parse_action g2.current_bet (strat2 pid2 g2) = (.raiseA, amt))
    (hover2 : (playerOf g2 pid2).chips < amt) :
    (runTurn strat g acted abe pid).isErr = false ∧
    (runTurn strat g acted abe pid).gameOf.pot = g.pot + (playerOf g pid).chips ∧
    playerOf (runTurn strat g acted abe pid).gameOf pid
      = ⟨0, (playerOf g pid).current_bet + (playerOf g pid).chips, (playerOf g pid).folded, true⟩ ∧
    runTurn strat2 g2 acted2 abe2 pid2 = .err g2 acted2 := by
  have hp1 : player_call (playerOf g pid) g.current_bet
      = .ok ⟨0, (playerOf g pid).current_bet + (playerOf g pid).chips, (playerOf g pid).folded, true⟩ := by
    unfold player_call place_bet
    rw [if_pos hover]
    simp
  have hrun : runTurn strat g acted abe pid
      = finishTurn
          { setPlayer g pid
              ⟨0, (playerOf g pid).current_bet + (playerOf g pid).chips, (playerOf g pid).folded, true⟩
            with pot := g.pot + (playerOf g pid).chips } pid acted := by
    unfold runTurn
    simp [hnf, hna, htop, hact, hp1, hover, setPlayer]
  refine ⟨?_, ?_, ?_, ?_⟩
  · rw [hrun, finishTurn_not_err]
  · rw [hrun, finishTurn_gameOf]
  · rw [hrun, finishTurn_gameOf]
    exact playerOf_setPlayer_self g pid _ hpid
  · unfold runTurn
    simp [hnf2, hna2, htop2, hact2, place_bet, hover2]

theorem claim_C7_amended_witness :
    (runTurn stratCallCheck gShortCall [1] true 0).isErr = false ∧
    (runTurn stratCallCheck gShortCall [1] true 0).gameOf.pot = 13 + 3 ∧
    playerOf (runTurn stratCallCheck gShortCall [1] true 0).gameOf 0 = ⟨0, 0 + 3, false, true⟩ ∧
    runTurn stratShortRaise gShort [] true 1 = .err gShort [] :=
  claim_C7_amended stratCallCheck gShortCall [1] true 0 stratShortRaise gShort [] true 1 20
    (by decide) (by decide) (by decide) (by decide) (by decide) (by decide)
    (by decide) (by decide) (by decide) (by decide) (by decide)

/-- Auxiliary: dealing community cards changes only the board. -/
theorem dealCommunity_fields : ∀ (n : Nat) (d : List Card) (g : GameSt) (out : List Card × GameSt),
    dealCommunity n d g = some out →
    out.2.current_bet = g.current_bet ∧ out.2.active = g.active := by
  intro n
  induction n with
  | zero =>
    intro d g out h
    simp only [dealCommunity] at h
    cases h
    exact ⟨rfl, rfl⟩
  | succ n ih =>
    intro d g out h
    cases hd : d.getLast? with
    | none =>
      simp only [dealCommunity, hd] at h
      cases h
    | some c =>
      simp only [dealCommunity, hd] at h
      have h2 := ih _ _ _ h
      exact h2

/-- Auxiliary: the commitment reset zeroes the seats listed as active. -/
theorem resetBetsAux_getD (active : List Nat) :
    ∀ (ps : List PlayerSt) (i j : Nat), active.contains (i + j) = true →
      ((resetBetsAux active ps i).getD j default).current_bet = 0 := by
  intro ps
  induction ps with
  | nil => intro i j _; rfl
  | cons p ps ih =>
    intro i j h
    cases j with
    | zero =>
      have hmem2 : i ∈ active := by simpa using h
      simp [resetBetsAux, hmem2]
    | succ j =>
      have h1 : active.contains ((i + 1) + j) = true := by
        rw [show (i + 1) + j = i + (j + 1) by omega]
        exact h
      simpa [resetBetsAux] using ih (i + 1) j h1

theorem resetActive_bet_zero (g : GameSt) (pid : Nat) (h : g.active.contains pid = true) :
    (playerOf (resetActiveBets g) pid).current_bet = 0 := by
  have h0 : g.active.contains (0 + pid) = true := by simpa using h
  simpa [playerOf, resetActiveBets] using resetBetsAux_getD g.active g.players 0 pid h0

/-- Claim C4, amended: entering a later street, the new betting round's
opening loop resets every active seat's committed-this-street amount to 0,
but the round's current_bet is not reset between streets: the state in
which the new street's betting starts carries the previous street's final
current_bet unchanged (only a full round reset zeroes it). -/
theorem claim_C4_amended (strat : Strat) (fuel bfuel n : Nat) (stage1 : Stage)
    (deck : List Card) (g g1 : GameSt) (pid : Nat)
    (h : streetEntry strat fuel bfuel n stage1 deck g = some g1)
    (hmem : g1.active.contains pid = true) :
    g1.current_bet = (betting_round strat fuel bfuel g).g.current_bet ∧
    (playerOf g1 pid).current_bet = 0 := by
  simp only [streetEntry] at h
  split at h
  · split at h
    · next d gd heq =>
      have hf := dealCommunity_fields n deck _ _ heq
      injection h with h1
      subst h1
      refine ⟨hf.1, resetActive_bet_zero gd pid ?_⟩
      have : (resetActiveBets gd).active = gd.active := rfl
      rw [this] at hmem
      exact hmem
    · cases h
  · cases h

theorem claim_C4_amended_witness :
    streetEntry stratCallCheck 5 20 3 .flop [⟨.Hearts, .r7⟩, ⟨.Spades, .Jack⟩, ⟨.Clubs, .r4⟩]
        gThreeBlinds = some gFlopEntry ∧
    gFlopEntry.active.contains 1 = true ∧
    (gFlopEntry.current_bet = (betting_round stratCallCheck 5 20 gThreeBlinds).g.current_bet ∧
      (playerOf gFlopEntry 1).current_bet = 0) :=
  ⟨by decide, by decide,
    claim_C4_amended stratCallCheck 5 20 3 .flop
      [⟨.Hearts, .r7⟩, ⟨.Spades, .Jack⟩, ⟨.Clubs, .r4⟩] gThreeBlinds gFlopEntry 1
      (by decide) (by decide)⟩

/-- Auxiliary: `finishTurn` returns the street-complete outcome only when
the updated acted set matches the active list as a set. -/
theorem finishTurn_ret (g : GameSt) (pid : Nat) (acted : List Nat) (g1 : GameSt) (a1 : List Nat)
    (h : finishTurn g pid acted = .ret g1 a1) : setEq a1 g1.active = true := by
  simp only [finishTurn] at h
  split at h
  · next hc =>
    cases h
    rw [Bool.and_eq_true] at hc
    exact hc.2
  · cases h

/-- Auxiliary: a single turn returns the street-complete outcome only when
the acted set it reports matches the active list as a set. -/
theorem runTurn_ret_setEq (strat : Strat) (g : GameSt) (acted : List Nat) (abe : Bool)
    (pid : Nat) (g1 : GameSt) (a1 : List Nat)
    (h : runTurn strat g acted abe pid = .ret g1 a1) : setEq a1 g1.active = true := by
  simp only [runTurn] at h
  by_cases h1 : ((playerOf g pid).folded || (playerOf g pid).all_in) = true
  · rw [if_pos h1] at h
    cases h
  · rw [if_neg h1] at h
    by_cases h2 : (setEq acted g.active && abe) = true
    · rw [if_pos h2] at h
      cases h
      rw [Bool.and_eq_true] at h2
      exact h2.1
    · rw [if_neg h2] at h
      cases hpa : (parse_action g.current_bet (strat pid g)).1 with
      | fold =>
        rw [hpa] at h
        exact finishTurn_ret _ _ _ _ _ h
      | check =>
        rw [hpa] at h
        by_cases h3 : (playerOf g pid).current_bet < g.current_bet
        · rw [if_pos h3] at h
          cases h
        · rw [if_neg h3] at h
          exact finishTurn_ret _ _ _ _ _ h
      | call =>
        rw [hpa] at h
        cases hpc : player_call (playerOf g pid) g.current_bet with
        | error e =>
          rw [hpc] at h
          cases h
        | ok p1 =>
          rw [hpc] at h
          exact finishTurn_ret _ _ _ _ _ h
      | raiseA =>
        rw [hpa] at h
        cases hpb : place_bet (playerOf g pid) (parse_action g.current_bet (strat pid g)).2 with
        | error e =>
          rw [hpb] at h
          cases h
        | ok p1 =>
          rw [hpb] at h
          exact finishTurn_ret _ _ _ _ _ h
      | allin =>
        rw [hpa] at h
        cases hpb : place_bet (playerOf g pid) (playerOf g pid).chips with
        | error e =>
          rw [hpb] at h
          cases h
        | ok p1 =>
          rw [hpb] at h
          exact finishTurn_ret _ _ _ _ _ h

/-- Auxiliary: a lap returns the street-complete outcome only with an
acted set matching the active list. -/
theorem runLap_returned_setEq (strat : Strat) :
    ∀ (order : List Nat) (g : GameSt) (acted : List Nat) (abe : Bool) (g1 : GameSt) (a1 : List Nat),
      runLap strat order g acted abe = .returned g1 a1 → setEq a1 g1.active = true := by
  intro order
  induction order with
  | nil =>
    intro g acted abe g1 a1 h
    simp only [runLap] at h
    cases h
  | cons pid rest ih =>
    intro g acted abe g1 a1 h
    simp only [runLap] at h
    split at h
    · next g2 a2 hr =>
      cases h
      exact runTurn_ret_setEq strat g acted abe pid _ _ hr
    · cases h
    · next g2 a2 abe2 hr => exact ih g2 a2 abe2 g1 a1 h

/-- Auxiliary: the betting loop completes only with an acted set matching
the active list. -/
theorem bettingLoop_complete_setEq (strat : Strat) :
    ∀ (fuel : Nat) (order : List Nat) (g : GameSt) (acted : List Nat),
      (bettingLoop strat fuel order g acted).res = .complete →
      setEq (bettingLoop strat fuel order g acted).acted
        (bettingLoop strat fuel order g acted).g.active = true := by
  intro fuel
  induction fuel with
  | zero =>
    intro order g acted h
    simp only [bettingLoop] at h
    cases h
  | succ fuel ih =>
    intro order g acted h
    cases hlap : runLap strat order g acted true with
    | returned g1 a1 =>
      simp only [bettingLoop, hlap]
      exact runLap_returned_setEq strat order g acted true g1 a1 hlap
    | errorL g1 a1 =>
      simp only [bettingLoop, hlap] at h
      cases h
    | lapEnd g1 a1 =>
      by_cases hlen : (order.filter (fun pid => !(playerOf g1 pid).folded)).length ≤ 1
      · simp only [bettingLoop, hlap, if_pos hlen] at h
        cases h
      · simp only [bettingLoop, hlap, if_neg hlen] at h ⊢
        exact ih _ g1 a1 h

/-- Claim C2, amended: the street-completion exit of the betting round
fires only at states where the acted-since-last-raise set equals, as a
set, the current list of non-folded active seats; that list includes
all-in seats, and the acted set can retain seats that folded after
acting, so the source's exit condition is strictly stronger than acting
plus matching by every seat that is neither folded nor all-in. Matched
bets are guaranteed only at the post-action exit, not at the lap-start
exit, where the bets-equal flag has just been re-initialized to true; and
a finite sequence of checks and calls by every eligible seat need not
terminate the loop at all (see the counterexamples). -/
theorem claim_C2_amended (strat : Strat) (fuel bfuel : Nat) (g : GameSt)
    (h : (betting_round strat fuel bfuel g).res = .complete) :
    setEq (betting_round strat fuel bfuel g).acted
      (betting_round strat fuel bfuel g).g.active = true := by
  simp only [betting_round] at h ⊢
  cases hb : buildOrder (resetActiveBets g) bfuel
      (((resetActiveBets g).dealer + 1) % (resetActiveBets g).players.length) [] with
  | none =>
    rw [hb] at h
    exact BRRes.noConfusion h
  | some order =>
    rw [hb] at h
    exact bettingLoop_complete_setEq strat fuel order (resetActiveBets g) [] h

theorem claim_C2_amended_witness :
    (betting_round stratCheck 3 10 gTwo).res = .complete ∧
    setEq (betting_round stratCheck 3 10 gTwo).acted
      (betting_round stratCheck 3 10 gTwo).g.active = true :=
  ⟨by decide, claim_C2_amended stratCheck 3 10 gTwo (by decide)⟩

/-! Toward claim C9: the Python list comparison is a strict linear order,
and the best-hand fold computes the greatest evaluation key, which only
depends on the multiset of keys. -/

theorem pyListGt_irrefl : ∀ l : List Nat, pyListGt l l = false := by
  intro l
  induction l with
  | nil => rfl
  | cons a l ih => simp [pyListGt, ih]

theorem pyListGt_trans : ∀ a b c : List Nat,
    pyListGt a b = true → pyListGt b c = true → pyListGt a c = true := by
  intro a
  induction a with
  | nil =>
    intro b c h1 _
    simp [pyListGt] at h1
  | cons x xs ih =>
    intro b c h1 h2
    cases b with
    | nil => simp [pyListGt] at h2
    | cons y ys =>
      cases c with
      | nil => rfl
      | cons z zs =>
        simp only [pyListGt] at h1 h2 ⊢
        split_ifs at h1 h2 ⊢ <;>
          first
          | rfl
          | omega
          | exact Bool.noConfusion h1
          | exact Bool.noConfusion h2
          | exact ih ys zs h1 h2

theorem pyListGt_connex : ∀ a b : List Nat,
    pyListGt a b = false → pyListGt b a = false → a = b := by
  intro a
  induction a with
  | nil =>
    intro b h1 h2
    cases b with
    | nil => rfl
    | cons y ys => simp [pyListGt] at h2
  | cons x xs ih =>
    intro b h1 h2
    cases b with
    | nil => simp [pyListGt] at h1
    | cons y ys =>
      simp only [pyListGt] at h1 h2
      split_ifs at h1 h2
      all_goals
        first
        | exact Bool.noConfusion h1
        | exact Bool.noConfusion h2
        | (rename_i hxy hyx
           have hx : x = y := by omega
           rw [hx, ih ys h1 h2])

theorem keyGt_irrefl (a : Nat × List Nat) : keyGt a a = false := by
  simp [keyGt, pyListGt_irrefl]

theorem keyGt_trans (a b c : Nat × List Nat)
    (h1 : keyGt a b = true) (h2 : keyGt b c = true) : keyGt a c = true := by
  simp only [keyGt, Bool.or_eq_true, Bool.and_eq_true, decide_eq_true_eq, beq_iff_eq] at h1 h2 ⊢
  rcases h1 with h1 | ⟨h1e, h1g⟩ <;> rcases h2 with h2 | ⟨h2e, h2g⟩
  · left; omega
  · left; omega
  · left; omega
  · right; exact ⟨by omega, pyListGt_trans _ _ _ h1g h2g⟩

theorem keyGt_connex (a b : Nat × List Nat)
    (h1 : keyGt a b = false) (h2 : keyGt b a = false) : a = b := by
  simp only [keyGt, Bool.or_eq_false_iff, Bool.and_eq_false_iff, decide_eq_false_iff_not,
    not_lt] at h1 h2
  have he : a.1 = b.1 := by omega
  have hg1 : pyListGt a.2 b.2 = false := by
    rcases h1.2 with h | h
    · exact absurd (beq_iff_eq.mpr he) (by simp [h])
    · simpa using h
  have hg2 : pyListGt b.2 a.2 = false := by
    rcases h2.2 with h | h
    · exact absurd (beq_iff_eq.mpr he.symm) (by simp [h])
    · simpa using h
  have ht : a.2 = b.2 := pyListGt_connex a.2 b.2 hg1 hg2
  exact Prod.ext he ht

theorem keyGt_le_trans (a b c : Nat × List Nat)
    (h1 : keyGt a b = false) (h2 : keyGt b c = false) : keyGt a c = false := by
  by_contra hc
  rw [Bool.not_eq_false] at hc
  by_cases hba : keyGt b a = true
  · have := keyGt_trans b a c hba hc
    exact absurd this (by simp [h2])
  · have hbaf : keyGt b a = false := by simpa using hba
    have hab := keyGt_connex a b h1 hbaf
    rw [hab] at hc
    exact absurd hc (by simp [h2])

theorem maxFrom_mem : ∀ (ks : List (Nat × List Nat)) (b : Nat × List Nat),
    maxFrom b ks ∈ b :: ks := by
  intro ks
  induction ks with
  | nil =>
    intro b
    exact List.mem_singleton.mpr rfl
  | cons k ks ih =>
    intro b
    have h0 : maxFrom b (k :: ks) = maxFrom (if keyGt k b then k else b) ks := rfl
    rw [h0]
    rcases List.mem_cons.mp (ih (if keyGt k b then k else b)) with h | h
    · rw [h]
      split
      · exact List.mem_cons_of_mem _ (List.mem_cons_self _ _)
      · exact List.mem_cons_self _ _
    · exact List.mem_cons_of_mem _ (List.mem_cons_of_mem _ h)

theorem maxFrom_not_gt : ∀ (ks : List (Nat × List Nat)) (b k : Nat × List Nat),
    k ∈ b :: ks → keyGt k (maxFrom b ks) = false := by
  intro ks
  induction ks with
  | nil =>
    intro b k hk
    have hkb : k = b := by simpa using hk
    rw [hkb]
    exact keyGt_irrefl b
  | cons k1 ks ih =>
    intro b k hk
    have h0 : maxFrom b (k1 :: ks) = maxFrom (if keyGt k1 b then k1 else b) ks := rfl
    rw [h0]
    rcases List.mem_cons.mp hk with hkb | hk1
    · rw [hkb]
      by_cases hc : keyGt k1 b = true
      · rw [if_pos hc]
        by_contra hcc
        rw [Bool.not_eq_false] at hcc
        have h1 : keyGt k1 (maxFrom k1 ks) = false := ih k1 k1 (List.mem_cons_self _ _)
        exact absurd (keyGt_trans k1 b (maxFrom k1 ks) hc hcc) (by simp [h1])
      · rw [if_neg hc]
        exact ih b b (List.mem_cons_self _ _)
    · rcases List.mem_cons.mp hk1 with hkk | hks
      · rw [hkk]
        by_cases hc : keyGt k1 b = true
        · rw [if_pos hc]
          exact ih k1 k1 (List.mem_cons_self _ _)
        · rw [if_neg hc]
          have hcf : keyGt k1 b = false := by simpa using hc
          exact keyGt_le_trans k1 b _ hcf (ih b b (List.mem_cons_self _ _))
      · exact ih (if keyGt k1 b then k1 else b) k (List.mem_cons_of_mem _ hks)

/-- Auxiliary: every five-card classification has category at least 1. -/
theorem rank_pos (cards : List Card) : 1 ≤ (evaluate_five_card_hand cards).1 := by
  simp only [evaluate_five_card_hand]
  split_ifs <;> simp

/-- Auxiliary: once a first hand is recorded, one fold step is the
`keyGt` selection on evaluation keys. -/
theorem stepBest_some (r : Nat) (t : List Nat) (c : List Card) :
    stepBest (r, some t) c =
      (if keyGt (evaluate_five_card_hand c) (r, t)
        then ((evaluate_five_card_hand c).1, some (evaluate_five_card_hand c).2)
        else (r, some t)) := rfl

/-- Auxiliary: the first fold step always records the first hand. -/
theorem stepBest_zero (c : List Card) :
    stepBest (0, none) c = ((evaluate_five_card_hand c).1, some (evaluate_five_card_hand c).2) := by
  simp only [stepBest]
  split
  · rfl
  · next hcond =>
    exfalso
    have h := rank_pos c
    simp at hcond
    omega

/-- Auxiliary: the fold from a recorded hand computes `maxFrom` on keys. -/
theorem foldl_stepBest_eq : ∀ (cs : List (List Card)) (r : Nat) (t : List Nat),
    List.foldl stepBest (r, some t) cs =
      ((maxFrom (r, t) (cs.map evaluate_five_card_hand)).1,
        some (maxFrom (r, t) (cs.map evaluate_five_card_hand)).2) := by
  intro cs
  induction cs with
  | nil => intro r t; rfl
  | cons c cs ih =>
    intro r t
    rw [List.foldl_cons, stepBest_some]
    have hm : maxFrom (r, t) ((c :: cs).map evaluate_five_card_hand)
        = maxFrom (if keyGt (evaluate_five_card_hand c) (r, t)
            then evaluate_five_card_hand c else (r, t)) (cs.map evaluate_five_card_hand) := rfl
    rw [hm]
    by_cases hc : keyGt (evaluate_five_card_hand c) (r, t) = true
    · rw [if_pos hc, if_pos hc]
      have h2 := ih (evaluate_five_card_hand c).1 (evaluate_five_card_hand c).2
      simpa using h2
    · rw [if_neg hc, if_neg hc]
      exact ih r t

/-- Auxiliary: a Boolean equality follows from the equivalence of truth. -/
theorem bool_eq_of_iff {a b : Bool} (h : a = true ↔ b = true) : a = b := by
  cases a <;> cases b <;> simp_all

theorem sortAsc_congr {l1 l2 : List Nat} (h : l1.Perm l2) : sortAsc l1 = sortAsc l2 := by
  refine List.eq_of_perm_of_sorted ?_
    (List.sorted_insertionSort _ l1) (List.sorted_insertionSort _ l2)
  exact (List.perm_insertionSort _ l1).trans (h.trans (List.perm_insertionSort _ l2).symm)

theorem sortDesc_congr {l1 l2 : List Nat} (h : l1.Perm l2) : sortDesc l1 = sortDesc l2 := by
  refine List.eq_of_perm_of_sorted ?_
    (List.sorted_insertionSort _ l1) (List.sorted_insertionSort _ l2)
  exact (List.perm_insertionSort _ l1).trans (h.trans (List.perm_insertionSort _ l2).symm)

theorem listMax_congr {l1 l2 : List Nat} (h : l1.Perm l2) : listMax l1 = listMax l2 := by
  unfold listMax
  induction h with
  | nil => rfl
  | cons x hp ih => simp only [List.foldr_cons, ih]
  | swap x y l => simp only [List.foldr_cons]; omega
  | trans h1 h2 ih1 ih2 => rw [ih1, ih2]

theorem contains_congr {l1 l2 : List Nat} (h : l1.Perm l2) (x : Nat) :
    l1.contains x = l2.contains x := by
  by_cases hm : x ∈ l1
  · have hm2 : x ∈ l2 := h.mem_iff.mp hm
    simp [hm, hm2]
  · have hm2 : x ∉ l2 := fun hx => hm (h.mem_iff.mpr hx)
    simp [hm, hm2]

theorem hasCount_congr {l1 l2 : List Nat} (h : l1.Perm l2) (c : Nat) :
    hasCount l1 c = hasCount l2 c := by
  apply bool_eq_of_iff
  unfold hasCount
  simp only [List.any_eq_true]
  constructor
  · rintro ⟨r, hr, hc⟩
    exact ⟨r, h.mem_iff.mp hr, by rwa [h.count_eq] at hc⟩
  · rintro ⟨r, hr, hc⟩
    exact ⟨r, h.mem_iff.mpr hr, by rwa [← h.count_eq] at hc⟩

theorem is_flush_congr {l1 l2 : List Suit} (h : l1.Perm l2) : is_flush l1 = is_flush l2 := by
  apply bool_eq_of_iff
  unfold is_flush
  simp only [List.any_eq_true]
  constructor
  · rintro ⟨s, hs, hc⟩
    exact ⟨s, h.mem_iff.mp hs, by rwa [h.count_eq] at hc⟩
  · rintro ⟨s, hs, hc⟩
    exact ⟨s, h.mem_iff.mpr hs, by rwa [← h.count_eq] at hc⟩

theorem dedup_filter_perm {l1 l2 : List Nat} (h : l1.Perm l2) (c : Nat) :
    (l1.dedup.filter (fun r => l1.count r == c)).Perm
      (l2.dedup.filter (fun r => l2.count r == c)) := by
  have hf : l1.dedup.filter (fun r => l1.count r == c)
      = l1.dedup.filter (fun r => l2.count r == c) := by
    apply List.filter_congr
    intro x _
    rw [h.count_eq]
  rw [hf]
  exact h.dedup.filter _

theorem get_rank_by_count_congr {l1 l2 : List Nat} (h : l1.Perm l2) (c : Nat) :
    get_rank_by_count l1 c = get_rank_by_count l2 c := by
  unfold get_rank_by_count
  exact listMax_congr (dedup_filter_perm h c)

theorem get_ranks_by_count_congr {l1 l2 : List Nat} (h : l1.Perm l2) (c : Nat) :
    get_ranks_by_count l1 c = get_ranks_by_count l2 c := by
  unfold get_ranks_by_count
  exact sortDesc_congr (dedup_filter_perm h c)

theorem fullHouseRem_perm {l1 l2 : List Nat} (h : l1.Perm l2) :
    (fullHouseRem l1).Perm (fullHouseRem l2) := by
  unfold fullHouseRem
  have hf : l1.dedup.filter
        (fun r => decide (2 ≤ l1.count r) && !((get_ranks_by_count l1 3).contains r))
      = l1.dedup.filter
        (fun r => decide (2 ≤ l2.count r) && !((get_ranks_by_count l2 3).contains r)) := by
    apply List.filter_congr
    intro x _
    rw [h.count_eq, get_ranks_by_count_congr h]
  rw [hf]
  exact h.dedup.filter _

theorem isEmpty_congr {l1 l2 : List Nat} (h : l1.Perm l2) : l1.isEmpty = l2.isEmpty := by
  apply bool_eq_of_iff
  rw [List.isEmpty_iff, List.isEmpty_iff]
  constructor
  · intro h1
    rw [h1] at h
    exact h.symm.eq_nil
  · intro h2
    rw [h2] at h
    exact h.eq_nil

theorem is_straight_congr {l1 l2 : List Nat} (h : l1.Perm l2) :
    is_straight l1 = is_straight l2 := by
  unfold is_straight
  rw [sortAsc_congr h.dedup, contains_congr h 14]

theorem get_high_cards_congr {l1 l2 : List Nat} (h : l1.Perm l2) (e : List Nat) (k : Nat) :
    get_high_cards l1 e k = get_high_cards l2 e k := by
  unfold get_high_cards
  rw [sortDesc_congr (h.filter _)]

/-- Auxiliary: the five-card classification is invariant under any
permutation of its five cards. -/
theorem eval5_perm {c1 c2 : List Card} (h : c1.Perm c2) :
    evaluate_five_card_hand c1 = evaluate_five_card_hand c2 := by
  have hR : (c1.map (fun c => rankValue c.rank)).Perm (c2.map (fun c => rankValue c.rank)) :=
    h.map _
  have hS : (c1.map (fun c => c.suit)).Perm (c2.map (fun c => c.suit)) := h.map _
  simp only [evaluate_five_card_hand]
  simp only [is_flush_congr hS, is_straight_congr hR, hasCount_congr hR,
    get_rank_by_count_congr hR, get_ranks_by_count_congr hR, get_high_cards_congr hR,
    sortDesc_congr hR, listMax_congr (fullHouseRem_perm hR), isEmpty_congr (fullHouseRem_perm hR)]

/-- Auxiliary: a nonempty card list with at least `n` cards has at least
one `n`-card combination. -/
theorem combinations_ne_nil : ∀ (n : Nat) (l : List Card), n ≤ l.length → combinations n l ≠ [] := by
  intro n l
  induction l generalizing n with
  | nil =>
    intro h
    have hn : n = 0 := by simpa using h
    rw [hn]
    simp [combinations]
  | cons x l ih =>
    intro h
    cases n with
    | zero => simp [combinations]
    | succ n =>
      have h1 : n ≤ l.length := by simpa using h
      simp only [combinations]
      intro hx
      rcases List.append_eq_nil.mp hx with ⟨hmap, _⟩
      exact ih n h1 (List.map_eq_nil_iff.mp hmap)

/-- Auxiliary: mapping a permutation-invariant function over all `n`-card
combinations of permuted card lists yields permuted key lists. -/
theorem combos_map_perm {β : Type} {l1 l2 : List Card} (h : l1.Perm l2) :
    ∀ (n : Nat) (f : List Card → β), (∀ c1 c2, c1.Perm c2 → f c1 = f c2) →
      ((combinations n l1).map f).Perm ((combinations n l2).map f) := by
  induction h with
  | nil =>
    intro n f _
    exact List.Perm.refl _
  | cons x hp ih =>
    intro n f hf
    cases n with
    | zero => exact List.Perm.refl _
    | succ n =>
      simp only [combinations, List.map_append, List.map_map]
      exact List.Perm.append (ih n (fun c => f (x :: c)) (fun a b hab => hf _ _ (hab.cons x)))
        (ih (n + 1) f hf)
  | swap x y l =>
    intro n f hf
    cases n with
    | zero => exact List.Perm.refl _
    | succ n =>
      cases n with
      | zero =>
        simp only [combinations, List.map_append, List.map_map, List.map_cons, List.map_nil,
          Function.comp, List.nil_append, List.cons_append]
        exact List.Perm.swap _ _ _
      | succ m =>
        simp only [combinations, List.map_append, List.map_map, List.append_assoc,
          Function.comp_def]
        have hA : (combinations m l).map (fun c => f (y :: x :: c))
            = (combinations m l).map (fun c => f (x :: y :: c)) :=
          List.map_congr_left (fun c _ => hf _ _ (List.Perm.swap x y c))
        rw [hA]
        refine List.Perm.append_left _ ?_
        have hp2 : ((((combinations (m + 1) l).map fun c => f (y :: c))
              ++ ((combinations (m + 1) l).map fun c => f (x :: c)))
              ++ (combinations (m + 1 + 1) l).map f).Perm
            ((((combinations (m + 1) l).map fun c => f (x :: c))
              ++ ((combinations (m + 1) l).map fun c => f (y :: c)))
              ++ (combinations (m + 1 + 1) l).map f) :=
          List.Perm.append_right _ List.perm_append_comm
        rw [List.append_assoc, List.append_assoc] at hp2
        exact hp2
  | trans h1 h2 ih1 ih2 =>
    intro n f hf
    exact (ih1 n f hf).trans (ih2 n f hf)

/-- Claim C9: for at least five cards, the (category, tiebreak) pair of
the hand evaluation is invariant under any permutation of the combined
card list, including any redistribution between the hole-card list and
the community-card list. -/
theorem claim_C9_perm_invariant (h1 c1 h2 c2 : List Card)
    (hp : (h1 ++ c1).Perm (h2 ++ c2)) (hlen : 5 ≤ (h1 ++ c1).length) :
    evaluate_hand h1 c1 = evaluate_hand h2 c2 := by
  unfold evaluate_hand
  obtain ⟨a1, cs1, hc1⟩ := List.exists_cons_of_ne_nil (combinations_ne_nil 5 (h1 ++ c1) hlen)
  have hlen2 : 5 ≤ (h2 ++ c2).length := by rw [← hp.length_eq]; exact hlen
  obtain ⟨a2, cs2, hc2⟩ := List.exists_cons_of_ne_nil (combinations_ne_nil 5 (h2 ++ c2) hlen2)
  have hperm : ((combinations 5 (h1 ++ c1)).map evaluate_five_card_hand).Perm
      ((combinations 5 (h2 ++ c2)).map evaluate_five_card_hand) :=
    combos_map_perm hp 5 _ (fun a b hab => eval5_perm hab)
  have hkey1 : evaluate_five_card_hand a1 :: cs1.map evaluate_five_card_hand
      = (combinations 5 (h1 ++ c1)).map evaluate_five_card_hand := by rw [hc1]; rfl
  have hkey2 : evaluate_five_card_hand a2 :: cs2.map evaluate_five_card_hand
      = (combinations 5 (h2 ++ c2)).map evaluate_five_card_hand := by rw [hc2]; rfl
  rw [hc1, hc2, List.foldl_cons, List.foldl_cons, stepBest_zero, stepBest_zero,
    foldl_stepBest_eq, foldl_stepBest_eq]
  simp only [Prod.mk.eta]
  have hmem1 : maxFrom (evaluate_five_card_hand a1) (cs1.map evaluate_five_card_hand)
      ∈ evaluate_five_card_hand a1 :: cs1.map evaluate_five_card_hand := maxFrom_mem _ _
  have hmem2 : maxFrom (evaluate_five_card_hand a2) (cs2.map evaluate_five_card_hand)
      ∈ evaluate_five_card_hand a2 :: cs2.map evaluate_five_card_hand := maxFrom_mem _ _
  have hub1 : ∀ k ∈ evaluate_five_card_hand a1 :: cs1.map evaluate_five_card_hand,
      keyGt k (maxFrom (evaluate_five_card_hand a1) (cs1.map evaluate_five_card_hand)) = false :=
    fun k hk => maxFrom_not_gt _ _ k hk
  have hub2 : ∀ k ∈ evaluate_five_card_hand a2 :: cs2.map evaluate_five_card_hand,
      keyGt k (maxFrom (evaluate_five_card_hand a2) (cs2.map evaluate_five_card_hand)) = false :=
    fun k hk => maxFrom_not_gt _ _ k hk
  have hgt12 : keyGt (maxFrom (evaluate_five_card_hand a1) (cs1.map evaluate_five_card_hand))
      (maxFrom (evaluate_five_card_hand a2) (cs2.map evaluate_five_card_hand)) = false := by
    apply hub2
    rw [hkey2]
    apply hperm.mem_iff.mp
    rw [← hkey1]
    exact hmem1
  have hgt21 : keyGt (maxFrom (evaluate_five_card_hand a2) (cs2.map evaluate_five_card_hand))
      (maxFrom (evaluate_five_card_hand a1) (cs1.map evaluate_five_card_hand)) = false := by
    apply hub1
    rw [hkey1]
    apply hperm.mem_iff.mpr
    rw [← hkey2]
    exact hmem2
  rw [keyGt_connex _ _ hgt12 hgt21]

theorem claim_C9_witness :
    5 ≤ (([⟨.Hearts, .Ace⟩, ⟨.Clubs, .r2⟩] : List Card)
        ++ ([⟨.Diamonds, .r3⟩, ⟨.Spades, .r4⟩, ⟨.Hearts, .r5⟩] : List Card)).length ∧
    evaluate_hand [⟨.Hearts, .Ace⟩, ⟨.Clubs, .r2⟩]
        [⟨.Diamonds, .r3⟩, ⟨.Spades, .r4⟩, ⟨.Hearts, .r5⟩]
      = evaluate_hand [⟨.Hearts, .r5⟩, ⟨.Spades, .r4⟩]
        [⟨.Diamonds, .r3⟩, ⟨.Clubs, .r2⟩, ⟨.Hearts, .Ace⟩] :=
  ⟨by decide,
    claim_C9_perm_invariant [⟨.Hearts, .Ace⟩, ⟨.Clubs, .r2⟩]
      [⟨.Diamonds, .r3⟩, ⟨.Spades, .r4⟩, ⟨.Hearts, .r5⟩]
      [⟨.Hearts, .r5⟩, ⟨.Spades, .r4⟩]
      [⟨.Diamonds, .r3⟩, ⟨.Clubs, .r2⟩, ⟨.Hearts, .Ace⟩]
      (List.reverse_perm _).symm (by decide)⟩

end Poker
